import Mathlib

/-!
Verification of the RSVP admission core of the mini-event-planner repository.

The modelled code is the `POST /:id/rsvp` handler in
`src/backend/routes/events.js`:

* the join branch issues a single conditional `findOneAndUpdate` whose filter
  requires `_id = eventId`, `size(attendees) < capacity` and
  `attendees` not containing `userId`, and whose update pushes `userId` onto
  `attendees`;
* on rejection (`event` is `null`) it performs one plain `findById` read and
  classifies the failure in order: missing record, already a member, full,
  generic failure;
* the leave branch issues a `findByIdAndUpdate` with `$pull`, which removes
  every occurrence of `userId` from `attendees`; when the record does not
  exist the handler dereferences `event.attendees` on `null`, which throws and
  is converted to a 500 response by the surrounding `catch`;
* any other `action` value yields a 400 "Invalid action" response without
  touching the store.

The MongoDB collection is modelled as an association list from event ids to
records; `findOneAndUpdate` / `findByIdAndUpdate` evaluate their condition and
apply their mutation in one step, mirroring the single-document atomicity of
the store.
-/

/-- An event-membership record: the fields of the stored document that the
RSVP handler reads or writes (`capacity` and `attendees`). -/
structure EventRec where
  capacity : Nat
  attendees : List String
  deriving Repr, DecidableEq

/-- The store: one MongoDB collection, keyed by event id. -/
abbrev Store := List (String × EventRec)

/-- `findById` / the filter `_id: eventId`: the record stored under an id. -/
def findRecord : Store → String → Option EventRec
  | [], _ => none
  | (k, v) :: rest, id => if k = id then some v else findRecord rest id

/-- Replacing the document stored under an id (the effect of a matched
`findOneAndUpdate` on the selected document). -/
def updateRecord : Store → String → EventRec → Store
  | [], _, _ => []
  | (k, v) :: rest, id, r =>
    if k = id then (id, r) :: rest else (k, v) :: updateRecord rest id r

/-- `$pull`: removes every element equal to `u` from the array. -/
def pullAll (l : List String) (u : String) : List String :=
  l.filter (fun x => decide (x ≠ u))

/-- The conditional add of the join branch
(`Event.findOneAndUpdate({_id, $expr: size(attendees) < capacity,
attendees: {$ne: userId}}, {$push: {attendees: userId}}, {new: true})`).
The filter is evaluated and the push applied in the same atomic step;
`none` means the filter matched no document (rejection). -/
def condAdd (s : Store) (eventId userId : String) : Option EventRec × Store :=
  match findRecord s eventId with
  | none => (none, s)
  | some r =>
    if r.attendees.length < r.capacity ∧ userId ∉ r.attendees then
      let r2 : EventRec := { r with attendees := r.attendees ++ [userId] }
      (some r2, updateRecord s eventId r2)
    else
      (none, s)

/-- The leave branch's `findByIdAndUpdate(eventId, {$pull: {attendees:
userId}}, {new: true})`: `none` means no document had this id. -/
def pullUpdate (s : Store) (eventId userId : String) : Option EventRec × Store :=
  match findRecord s eventId with
  | none => (none, s)
  | some r =>
    let r2 : EventRec := { r with attendees := pullAll r.attendees userId }
    (some r2, updateRecord s eventId r2)

/-- The possible responses of the RSVP handler. -/
inductive RsvpResult where
  /-- 200 `{message: "RSVP Successful", attendees}` -/
  | admitted (attendees : List String)
  /-- 404 `{message: "Event not found"}` -/
  | eventNotFound
  /-- 400 `{message: "Already RSVPed"}` -/
  | alreadyMember
  /-- 400 `{message: "Event is full"}` -/
  | capacityExceeded
  /-- 400 `{message: "RSVP Failed"}` -/
  | admissionRejected
  /-- 200 `{message: "RSVP Cancelled", attendees}` -/
  | left (attendees : List String)
  /-- 400 `{message: "Invalid action"}` -/
  | invalidAction
  /-- 500 `{error: ...}` produced by the `catch` block -/
  | serverError
  deriving Repr, DecidableEq

/-- The `POST /:id/rsvp` handler (`src/backend/routes/events.js`, lines
104-154), returning the response together with the store after the call.
In the leave branch, a `null` result of `findByIdAndUpdate` makes
`event.attendees` throw a `TypeError`, which the `catch` turns into a 500
response; this is modelled by `RsvpResult.serverError`. -/
def rsvp (s : Store) (eventId userId action : String) : RsvpResult × Store :=
  if action = "join" then
    match condAdd s eventId userId with
    | (some r, s2) => (RsvpResult.admitted r.attendees, s2)
    | (none, s2) =>
      match findRecord s2 eventId with
      | none => (RsvpResult.eventNotFound, s2)
      | some cur =>
        if userId ∈ cur.attendees then (RsvpResult.alreadyMember, s2)
        else if cur.capacity ≤ cur.attendees.length then
          (RsvpResult.capacityExceeded, s2)
        else (RsvpResult.admissionRejected, s2)
  else if action = "leave" then
    match pullUpdate s eventId userId with
    | (some r, s2) => (RsvpResult.left r.attendees, s2)
    | (none, s2) => (RsvpResult.serverError, s2)
  else
    (RsvpResult.invalidAction, s)

/-- The rejection classification of spec §4.2 step 3: one plain read of the
record, then in order: absent record, already a member, at or over capacity,
generic rejection. The handler's rejection branch (lines 125-134) is proved
to return exactly this. -/
def classifyRejection (s : Store) (e u : String) : RsvpResult :=
  match findRecord s e with
  | none => RsvpResult.eventNotFound
  | some r =>
    if u ∈ r.attendees then RsvpResult.alreadyMember
    else if r.capacity ≤ r.attendees.length then RsvpResult.capacityExceeded
    else RsvpResult.admissionRejected

/-- One RSVP call, for reasoning about sequences of operations. -/
inductive Op where
  | join (eventId userId : String)
  | leave (eventId userId : String)
  deriving Repr, DecidableEq

/-- The store after one call (the response is discarded). -/
def applyOp (s : Store) : Op → Store
  | Op.join e u => (rsvp s e u "join").2
  | Op.leave e u => (rsvp s e u "leave").2

/-- The store after a sequence of calls. -/
def runOps (s : Store) (ops : List Op) : Store := ops.foldl applyOp s

/-- A sequence of join calls against one event, collecting every response. -/
def runJoins : Store → String → List String → List RsvpResult × Store
  | s, _, [] => ([], s)
  | s, e, u :: us =>
    let p := rsvp s e u "join"
    let q := runJoins p.2 e us
    (p.1 :: q.1, q.2)

/-- Whether a response is the `Admitted` outcome. -/
def isAdmitted : RsvpResult → Bool
  | RsvpResult.admitted _ => true
  | _ => false

/-- How many calls in a sequence were admitted. -/
def admittedCount (rs : List RsvpResult) : Nat := rs.countP isAdmitted

/-- Invariant I1: no record holds more attendees than its capacity. -/
def capOk (s : Store) : Prop :=
  ∀ p ∈ s, (p : String × EventRec).2.attendees.length ≤ p.2.capacity

/-- Invariant I2: no record's attendee list repeats a user id. -/
def nodupOk (s : Store) : Prop :=
  ∀ p ∈ s, (p : String × EventRec).2.attendees.Nodup

instance : DecidablePred capOk := fun s =>
  show Decidable (∀ p ∈ s, _) from List.decidableBAll _ s

instance : DecidablePred nodupOk := fun s =>
  show Decidable (∀ p ∈ s, _) from List.decidableBAll _ s

example :
    rsvp [("e1", ⟨2, ["alice"]⟩)] "e1" "bob" "join" =
      (RsvpResult.admitted ["alice", "bob"], [("e1", ⟨2, ["alice", "bob"]⟩)]) := by
  decide

example :
    rsvp [("e1", ⟨1, ["alice"]⟩)] "e1" "bob" "join" =
      (RsvpResult.capacityExceeded, [("e1", ⟨1, ["alice"]⟩)]) := by
  decide

example :
    rsvp [("e1", ⟨5, ["alice"]⟩)] "e1" "alice" "join" =
      (RsvpResult.alreadyMember, [("e1", ⟨5, ["alice"]⟩)]) := by
  decide

example :
    rsvp [] "ghost-event" "alice" "join" = (RsvpResult.eventNotFound, []) := by
  decide

example :
    rsvp [] "ghost-event" "alice" "leave" = (RsvpResult.serverError, []) := by
  decide

example :
    rsvp [("e1", ⟨5, ["alice", "bob", "alice"]⟩)] "e1" "alice" "leave" =
      (RsvpResult.left ["bob"], [("e1", ⟨5, ["bob"]⟩)]) := by
  decide

/-! ### Lemmas about the association-list store -/

theorem findRecord_updateRecord_self (s : Store) (e : String) (r0 r : EventRec)
    (h : findRecord s e = some r0) :
    findRecord (updateRecord s e r) e = some r := by
  induction s with
  | nil => simp [findRecord] at h
  | cons p rest ih =>
    obtain ⟨k, v⟩ := p
    by_cases hk : k = e
    · subst hk
      simp [findRecord, updateRecord]
    · simp only [findRecord, updateRecord, if_neg hk] at h ⊢
      exact ih h

theorem findRecord_updateRecord_ne (s : Store) (e e2 : String) (r : EventRec)
    (h : e2 ≠ e) :
    findRecord (updateRecord s e r) e2 = findRecord s e2 := by
  induction s with
  | nil => simp [updateRecord]
  | cons p rest ih =>
    obtain ⟨k, v⟩ := p
    by_cases hk : k = e
    · subst hk
      simp [findRecord, updateRecord, if_neg (Ne.symm h), h]
    · simp only [updateRecord, if_neg hk, findRecord]
      by_cases hk2 : k = e2
      · simp [hk2]
      · simp [hk2, ih]

theorem updateRecord_self (s : Store) (e : String) (r : EventRec)
    (h : findRecord s e = some r) :
    updateRecord s e r = s := by
  induction s with
  | nil => simp [findRecord] at h
  | cons p rest ih =>
    obtain ⟨k, v⟩ := p
    by_cases hk : k = e
    · subst hk
      simp only [findRecord, if_true, eq_self_iff_true, Option.some.injEq] at h
      simp [updateRecord, h]
    · simp only [findRecord, if_neg hk] at h
      simp [updateRecord, hk, ih h]

theorem mem_updateRecord (s : Store) (e : String) (r : EventRec)
    (p : String × EventRec) (h : p ∈ updateRecord s e r) :
    p = (e, r) ∨ p ∈ s := by
  induction s with
  | nil => simp [updateRecord] at h
  | cons q rest ih =>
    obtain ⟨k, v⟩ := q
    by_cases hk : k = e
    · subst hk
      simp only [updateRecord, if_true, eq_self_iff_true, List.mem_cons] at h
      rcases h with h | h
      · exact Or.inl h
      · exact Or.inr (List.mem_cons_of_mem _ h)
    · simp only [updateRecord, if_neg hk, List.mem_cons] at h
      rcases h with h | h
      · exact Or.inr (h ▸ List.mem_cons_self _ _)
      · rcases ih h with h2 | h2
        · exact Or.inl h2
        · exact Or.inr (List.mem_cons_of_mem _ h2)

theorem findRecord_mem (s : Store) (e : String) (r : EventRec)
    (h : findRecord s e = some r) : (e, r) ∈ s := by
  induction s with
  | nil => simp [findRecord] at h
  | cons p rest ih =>
    obtain ⟨k, v⟩ := p
    by_cases hk : k = e
    · subst hk
      simp only [findRecord, if_true, eq_self_iff_true, Option.some.injEq] at h
      subst h
      exact List.mem_cons_self _ _
    · simp only [findRecord, if_neg hk] at h
      exact List.mem_cons_of_mem _ (ih h)

/-! ### Branch characterizations of the handler -/

theorem rsvp_join_ok (s : Store) (e u : String) (r : EventRec)
    (hr : findRecord s e = some r) (hu : u ∉ r.attendees)
    (hc : r.attendees.length < r.capacity) :
    rsvp s e u "join" =
      (RsvpResult.admitted (r.attendees ++ [u]),
       updateRecord s e { r with attendees := r.attendees ++ [u] }) := by
  simp [rsvp, condAdd, hr, hu, hc]

theorem rsvp_join_notFound (s : Store) (e u : String)
    (hr : findRecord s e = none) :
    rsvp s e u "join" = (RsvpResult.eventNotFound, s) := by
  simp [rsvp, condAdd, hr]

theorem rsvp_join_already (s : Store) (e u : String) (r : EventRec)
    (hr : findRecord s e = some r) (hu : u ∈ r.attendees) :
    rsvp s e u "join" = (RsvpResult.alreadyMember, s) := by
  have hcond : ¬(r.attendees.length < r.capacity ∧ u ∉ r.attendees) :=
    fun h => h.2 hu
  simp [rsvp, condAdd, hr, hcond, hu]

theorem rsvp_join_full (s : Store) (e u : String) (r : EventRec)
    (hr : findRecord s e = some r) (hu : u ∉ r.attendees)
    (hc : r.capacity ≤ r.attendees.length) :
    rsvp s e u "join" = (RsvpResult.capacityExceeded, s) := by
  have hlt : ¬ r.attendees.length < r.capacity := Nat.not_lt.mpr hc
  simp [rsvp, condAdd, hr, hlt, hu, hc]

theorem rsvp_leave_found (s : Store) (e u : String) (r : EventRec)
    (hr : findRecord s e = some r) :
    rsvp s e u "leave" =
      (RsvpResult.left (pullAll r.attendees u),
       updateRecord s e { r with attendees := pullAll r.attendees u }) := by
  simp [rsvp, pullUpdate, hr]

theorem rsvp_leave_missing (s : Store) (e u : String)
    (hr : findRecord s e = none) :
    rsvp s e u "leave" = (RsvpResult.serverError, s) := by
  simp [rsvp, pullUpdate, hr]

theorem rsvp_invalid (s : Store) (e u a : String)
    (h1 : a ≠ "join") (h2 : a ≠ "leave") :
    rsvp s e u a = (RsvpResult.invalidAction, s) := by
  simp [rsvp, h1, h2]

/-! ### Lemmas about `$pull` -/

theorem mem_pullAll (l : List String) (u x : String) :
    x ∈ pullAll l u ↔ x ∈ l ∧ x ≠ u := by
  simp [pullAll, List.mem_filter]

theorem pullAll_idem (l : List String) (u : String) :
    pullAll (pullAll l u) u = pullAll l u := by
  simp [pullAll, List.filter_filter]

theorem count_pullAll (l : List String) (u : String) :
    (pullAll l u).count u = 0 := by
  rw [List.count_eq_zero]
  intro h
  exact ((mem_pullAll l u u).mp h).2 rfl

/-! ### Preservation of the record invariants by single calls -/

theorem capOk_applyOp (s : Store) (op : Op) (h : capOk s) :
    capOk (applyOp s op) := by
  cases op with
  | join e u =>
    show capOk (rsvp s e u "join").2
    cases hr : findRecord s e with
    | none =>
      rw [rsvp_join_notFound s e u hr]
      exact h
    | some r =>
      by_cases hu : u ∈ r.attendees
      · rw [rsvp_join_already s e u r hr hu]
        exact h
      · by_cases hc : r.attendees.length < r.capacity
        · rw [rsvp_join_ok s e u r hr hu hc]
          intro p hp
          rcases mem_updateRecord s e _ p hp with hpe | hps
          · subst hpe
            show (r.attendees ++ [u]).length ≤ r.capacity
            simp only [List.length_append, List.length_cons, List.length_nil]
            omega
          · exact h p hps
        · rw [rsvp_join_full s e u r hr hu (Nat.not_lt.mp hc)]
          exact h
  | leave e u =>
    show capOk (rsvp s e u "leave").2
    cases hr : findRecord s e with
    | none =>
      rw [rsvp_leave_missing s e u hr]
      exact h
    | some r =>
      rw [rsvp_leave_found s e u r hr]
      intro p hp
      rcases mem_updateRecord s e _ p hp with hpe | hps
      · subst hpe
        show (pullAll r.attendees u).length ≤ r.capacity
        have hlen : (pullAll r.attendees u).length ≤ r.attendees.length :=
          List.length_filter_le _ _
        exact le_trans hlen (h (e, r) (findRecord_mem s e r hr))
      · exact h p hps

theorem capOk_runOps (ops : List Op) (s : Store) (h : capOk s) :
    capOk (runOps s ops) := by
  induction ops generalizing s with
  | nil => exact h
  | cons op ops ih => exact ih _ (capOk_applyOp s op h)

theorem nodupOk_applyOp (s : Store) (op : Op) (h : nodupOk s) :
    nodupOk (applyOp s op) := by
  cases op with
  | join e u =>
    show nodupOk (rsvp s e u "join").2
    cases hr : findRecord s e with
    | none =>
      rw [rsvp_join_notFound s e u hr]
      exact h
    | some r =>
      by_cases hu : u ∈ r.attendees
      · rw [rsvp_join_already s e u r hr hu]
        exact h
      · by_cases hc : r.attendees.length < r.capacity
        · rw [rsvp_join_ok s e u r hr hu hc]
          intro p hp
          rcases mem_updateRecord s e _ p hp with hpe | hps
          · subst hpe
            show (r.attendees ++ [u]).Nodup
            have hnd : r.attendees.Nodup := h (e, r) (findRecord_mem s e r hr)
            rw [List.nodup_append]
            exact ⟨hnd, List.nodup_singleton u, by
              simpa [List.disjoint_singleton] using hu⟩
          · exact h p hps
        · rw [rsvp_join_full s e u r hr hu (Nat.not_lt.mp hc)]
          exact h
  | leave e u =>
    show nodupOk (rsvp s e u "leave").2
    cases hr : findRecord s e with
    | none =>
      rw [rsvp_leave_missing s e u hr]
      exact h
    | some r =>
      rw [rsvp_leave_found s e u r hr]
      intro p hp
      rcases mem_updateRecord s e _ p hp with hpe | hps
      · subst hpe
        show (pullAll r.attendees u).Nodup
        exact List.Nodup.filter _ (h (e, r) (findRecord_mem s e r hr))
      · exact h p hps

theorem nodupOk_runOps (ops : List Op) (s : Store) (h : nodupOk s) :
    nodupOk (runOps s ops) := by
  induction ops generalizing s with
  | nil => exact h
  | cons op ops ih => exact ih _ (nodupOk_applyOp s op h)

/-- Each admitted join consumes one free slot, so a run of joins admits at
most `capacity - |attendees|` callers. -/
theorem admittedCount_le (us : List String) (s : Store) (e : String)
    (r : EventRec) (hr : findRecord s e = some r) :
    admittedCount (runJoins s e us).1 ≤ r.capacity - r.attendees.length := by
  induction us generalizing s r with
  | nil => simp [runJoins, admittedCount]
  | cons u us ih =>
    show admittedCount ((rsvp s e u "join").1 ::
      (runJoins (rsvp s e u "join").2 e us).1) ≤ _
    by_cases hu : u ∈ r.attendees
    · rw [rsvp_join_already s e u r hr hu]
      simpa [admittedCount, List.countP_cons, isAdmitted] using ih s r hr
    · by_cases hc : r.attendees.length < r.capacity
      · rw [rsvp_join_ok s e u r hr hu hc]
        have hr2 : findRecord
            (updateRecord s e { r with attendees := r.attendees ++ [u] }) e =
            some { r with attendees := r.attendees ++ [u] } :=
          findRecord_updateRecord_self s e r _ hr
        have hih := ih _ _ hr2
        simp [admittedCount, List.countP_cons, isAdmitted] at hih ⊢
        omega
      · rw [rsvp_join_full s e u r hr hu (Nat.not_lt.mp hc)]
        simpa [admittedCount, List.countP_cons, isAdmitted] using ih s r hr

/-! ### Claim theorems -/

/-- Claim C1: `Join(eventID, U)` returns `Admitted` exactly when the record exists,
`U` is not yet a member, and the member count is below capacity; in that case
the response carries the extended member list, the stored member set becomes
the old set plus `{U}`, and the admission predicate and mutation happen in the
single conditional-update step `condAdd`. -/
theorem join_admit_characterization (s : Store) (e u : String) :
    ((∃ l, (rsvp s e u "join").1 = RsvpResult.admitted l) ↔
      ∃ r, findRecord s e = some r ∧ u ∉ r.attendees ∧
        r.attendees.length < r.capacity)
    ∧ (∀ r, findRecord s e = some r → u ∉ r.attendees →
        r.attendees.length < r.capacity →
        rsvp s e u "join" =
          (RsvpResult.admitted (r.attendees ++ [u]),
           updateRecord s e { r with attendees := r.attendees ++ [u] })
        ∧ ∀ x, x ∈ r.attendees ++ [u] ↔ x ∈ r.attendees ∨ x = u) := by
  constructor
  · constructor
    · rintro ⟨l, hl⟩
      cases hr : findRecord s e with
      | none =>
        rw [rsvp_join_notFound s e u hr] at hl
        simp at hl
      | some r =>
        by_cases hu : u ∈ r.attendees
        · rw [rsvp_join_already s e u r hr hu] at hl
          simp at hl
        · by_cases hc : r.attendees.length < r.capacity
          · exact ⟨r, hr ▸ rfl, hu, hc⟩
          · rw [rsvp_join_full s e u r hr hu (Nat.not_lt.mp hc)] at hl
            simp at hl
    · rintro ⟨r, hr, hu, hc⟩
      exact ⟨r.attendees ++ [u], by rw [rsvp_join_ok s e u r hr hu hc]⟩
  · intro r hr hu hc
    refine ⟨rsvp_join_ok s e u r hr hu hc, ?_⟩
    intro x
    simp

/-- Witness for C1 at a concrete input: joining an event with one free slot. -/
theorem join_admit_characterization_w :
    rsvp [("e1", ⟨2, ["alice"]⟩)] "e1" "bob" "join" =
      (RsvpResult.admitted (["alice"] ++ ["bob"]),
       updateRecord [("e1", ⟨2, ["alice"]⟩)] "e1" ⟨2, ["alice"] ++ ["bob"]⟩) :=
  ((join_admit_characterization [("e1", ⟨2, ["alice"]⟩)] "e1" "bob").2
    ⟨2, ["alice"]⟩ (by decide) (by decide) (by decide)).1

/-- Claim C4: a `Join` that does not return `Admitted` leaves the store unchanged:
the handler makes one conditional attempt, and the diagnostic read after a
rejection performs no mutation. -/
theorem join_failure_no_effect (s : Store) (e u : String)
    (h : isAdmitted (rsvp s e u "join").1 = false) :
    (rsvp s e u "join").2 = s := by
  cases hr : findRecord s e with
  | none => rw [rsvp_join_notFound s e u hr]
  | some r =>
    by_cases hu : u ∈ r.attendees
    · rw [rsvp_join_already s e u r hr hu]
    · by_cases hc : r.attendees.length < r.capacity
      · rw [rsvp_join_ok s e u r hr hu hc] at h
        simp [isAdmitted] at h
      · rw [rsvp_join_full s e u r hr hu (Nat.not_lt.mp hc)]

/-- Witness for C4: a rejected join (event not found) leaves the store as is. -/
theorem join_failure_no_effect_w :
    isAdmitted (rsvp [] "ghost-event" "alice" "join").1 = false ∧
    (rsvp [] "ghost-event" "alice" "join").2 = [] :=
  ⟨by decide, join_failure_no_effect [] "ghost-event" "alice" (by decide)⟩

/-- Claim C5: when the conditional add is rejected, the handler does one plain read
and classifies in order: absent record → `EventNotFound`; member →
`AlreadyMember`; at/over capacity → `CapacityExceeded`; otherwise the generic
`AdmissionRejected`; and the store is left unchanged. -/
theorem join_rejection_classified (s : Store) (e u : String)
    (h : (condAdd s e u).1 = none) :
    rsvp s e u "join" = (classifyRejection s e u, s) := by
  cases hr : findRecord s e with
  | none =>
    rw [rsvp_join_notFound s e u hr]
    simp [classifyRejection, hr]
  | some r =>
    by_cases hu : u ∈ r.attendees
    · rw [rsvp_join_already s e u r hr hu]
      simp [classifyRejection, hr, hu]
    · by_cases hc : r.attendees.length < r.capacity
      · exfalso
        simp [condAdd, hr, hc, hu] at h
      · rw [rsvp_join_full s e u r hr hu (Nat.not_lt.mp hc)]
        simp [classifyRejection, hr, hu, Nat.not_lt.mp hc]

/-- Witness for C5: a join against a full event is rejected and classified as
`CapacityExceeded` with the store unchanged. -/
theorem join_rejection_classified_w :
    (condAdd [("e1", ⟨1, ["alice"]⟩)] "e1" "bob").1 = none ∧
    rsvp [("e1", ⟨1, ["alice"]⟩)] "e1" "bob" "join" =
      (classifyRejection [("e1", ⟨1, ["alice"]⟩)] "e1" "bob",
       [("e1", ⟨1, ["alice"]⟩)]) :=
  ⟨by decide, join_rejection_classified [("e1", ⟨1, ["alice"]⟩)] "e1" "bob" (by decide)⟩

/-- Claim C2: starting from a store satisfying `|attendees| ≤ capacity` for every
record, any sequence of join/leave calls preserves it; a run of joins against
an event holding `M` members admits at most `max(0, C - M)` callers (Nat
subtraction `C - M`); and a join by a non-member against a saturated event
fails with `CapacityExceeded` and leaves the store untouched. -/
theorem capacity_never_exceeded :
    (∀ (s : Store) (ops : List Op), capOk s → capOk (runOps s ops))
    ∧ (∀ (s : Store) (e : String) (r : EventRec) (us : List String),
        findRecord s e = some r →
        admittedCount (runJoins s e us).1 ≤ r.capacity - r.attendees.length)
    ∧ (∀ (s : Store) (e u : String) (r : EventRec),
        findRecord s e = some r → r.capacity ≤ r.attendees.length →
        u ∉ r.attendees →
        rsvp s e u "join" = (RsvpResult.capacityExceeded, s)) :=
  ⟨fun s ops h => capOk_runOps ops s h,
   fun s e r us hr => admittedCount_le us s e r hr,
   fun s e u r hr hc hu => rsvp_join_full s e u r hr hu hc⟩

/-- Witness for C2: a capacity-1 event, two join attempts, one admission. -/
theorem capacity_never_exceeded_w :
    capOk (runOps [("e1", ⟨1, []⟩)] [Op.join "e1" "a", Op.join "e1" "b"])
    ∧ admittedCount (runJoins [("e1", ⟨1, []⟩)] "e1" ["a", "b"]).1 ≤ 1 - 0
    ∧ rsvp [("e1", ⟨1, ["a"]⟩)] "e1" "b" "join" =
        (RsvpResult.capacityExceeded, [("e1", ⟨1, ["a"]⟩)]) :=
  ⟨capacity_never_exceeded.1 [("e1", ⟨1, []⟩)]
     [Op.join "e1" "a", Op.join "e1" "b"] (by decide),
   capacity_never_exceeded.2.1 [("e1", ⟨1, []⟩)] "e1" ⟨1, []⟩ ["a", "b"]
     (by decide),
   capacity_never_exceeded.2.2 [("e1", ⟨1, ["a"]⟩)] "e1" "b" ⟨1, ["a"]⟩
     (by decide) (by decide) (by decide)⟩

/-- Claim C3: starting from a store whose attendee lists are duplicate-free, any
sequence of join/leave calls keeps them duplicate-free, and a repeated `Join`
by an existing member fails with `AlreadyMember` without touching the store. -/
theorem members_never_duplicated :
    (∀ (s : Store) (ops : List Op), nodupOk s → nodupOk (runOps s ops))
    ∧ (∀ (s : Store) (e u : String) (r : EventRec),
        findRecord s e = some r → u ∈ r.attendees →
        rsvp s e u "join" = (RsvpResult.alreadyMember, s)) :=
  ⟨fun s ops h => nodupOk_runOps ops s h,
   fun s e u r hr hu => rsvp_join_already s e u r hr hu⟩

/-- Witness for C3: repeated joins by the same user, then a leave. -/
theorem members_never_duplicated_w :
    nodupOk (runOps [("e1", ⟨3, []⟩)]
      [Op.join "e1" "a", Op.join "e1" "a", Op.leave "e1" "a"])
    ∧ rsvp [("e1", ⟨3, ["a"]⟩)] "e1" "a" "join" =
        (RsvpResult.alreadyMember, [("e1", ⟨3, ["a"]⟩)]) :=
  ⟨members_never_duplicated.1 [("e1", ⟨3, []⟩)]
     [Op.join "e1" "a", Op.join "e1" "a", Op.leave "e1" "a"] (by decide),
   members_never_duplicated.2 [("e1", ⟨3, ["a"]⟩)] "e1" "a" ⟨3, ["a"]⟩
     (by decide) (by decide)⟩

/-- Claim C6: on an existing record, `Leave` returns `Left` with the member list of
the record minus every occurrence of `U` (set difference by `{U}`), and a
second `Leave` right after returns the same member list without error and
leaves the store exactly as after the first call (idempotence). -/
theorem leave_idempotent (s : Store) (e u : String) (r : EventRec)
    (hr : findRecord s e = some r) :
    rsvp s e u "leave" =
      (RsvpResult.left (pullAll r.attendees u),
       updateRecord s e { r with attendees := pullAll r.attendees u })
    ∧ (∀ x, x ∈ pullAll r.attendees u ↔ x ∈ r.attendees ∧ x ≠ u)
    ∧ rsvp (rsvp s e u "leave").2 e u "leave" =
        (RsvpResult.left (pullAll r.attendees u), (rsvp s e u "leave").2) := by
  have h1 := rsvp_leave_found s e u r hr
  refine ⟨h1, fun x => mem_pullAll r.attendees u x, ?_⟩
  have hs1 : (rsvp s e u "leave").2 =
      updateRecord s e { r with attendees := pullAll r.attendees u } := by
    rw [h1]
  have hr2 : findRecord (rsvp s e u "leave").2 e =
      some { r with attendees := pullAll r.attendees u } := by
    rw [hs1]
    exact findRecord_updateRecord_self s e r _ hr
  have h2 := rsvp_leave_found _ e u _ hr2
  rw [h2]
  have hpull : pullAll (EventRec.mk r.capacity (pullAll r.attendees u)).attendees u =
      pullAll r.attendees u := pullAll_idem r.attendees u
  rw [show (EventRec.mk r.capacity (pullAll (EventRec.mk r.capacity (pullAll r.attendees u)).attendees u)) =
      EventRec.mk r.capacity (pullAll r.attendees u) by rw [hpull]]
  rw [hpull, updateRecord_self _ e _ hr2]

/-- Witness for C6: leaving twice from a concrete two-member event. -/
theorem leave_idempotent_w :
    rsvp [("e1", ⟨3, ["alice", "bob"]⟩)] "e1" "bob" "leave" =
      (RsvpResult.left (pullAll ["alice", "bob"] "bob"),
       updateRecord [("e1", ⟨3, ["alice", "bob"]⟩)] "e1"
         ⟨3, pullAll ["alice", "bob"] "bob"⟩)
    ∧ (∀ x, x ∈ pullAll ["alice", "bob"] "bob" ↔
        x ∈ ["alice", "bob"] ∧ x ≠ "bob")
    ∧ rsvp (rsvp [("e1", ⟨3, ["alice", "bob"]⟩)] "e1" "bob" "leave").2
        "e1" "bob" "leave" =
        (RsvpResult.left (pullAll ["alice", "bob"] "bob"),
         (rsvp [("e1", ⟨3, ["alice", "bob"]⟩)] "e1" "bob" "leave").2) :=
  leave_idempotent [("e1", ⟨3, ["alice", "bob"]⟩)] "e1" "bob"
    ⟨3, ["alice", "bob"]⟩ (by decide)

/-- Claim C7 (code evaluated at the failing input): a `Leave` against a
non-existent record does NOT complete as a no-op success; `findByIdAndUpdate`
returns `null`, the handler dereferences `event.attendees`, and the `catch`
yields a 500 server error. The spec requires this call to succeed silently. -/
theorem leave_missing_event_errors :
    rsvp [] "ghost-event" "alice" "leave" = (RsvpResult.serverError, []) := by
  decide

/-- Claim C8: any action other than `join` and `leave` yields the 400
"Invalid action" response and performs no store operation. -/
theorem invalid_action_no_effect (s : Store) (e u a : String)
    (h1 : a ≠ "join") (h2 : a ≠ "leave") :
    rsvp s e u a = (RsvpResult.invalidAction, s) := by
  simp [rsvp, h1, h2]

/-- Witness for C8 at a concrete unknown action. -/
theorem invalid_action_no_effect_w :
    ("maybe" ≠ "join") ∧ ("maybe" ≠ "leave") ∧
    rsvp [("e1", ⟨2, ["alice"]⟩)] "e1" "bob" "maybe" =
      (RsvpResult.invalidAction, [("e1", ⟨2, ["alice"]⟩)]) :=
  ⟨by decide, by decide,
   invalid_action_no_effect [("e1", ⟨2, ["alice"]⟩)] "e1" "bob" "maybe"
     (by decide) (by decide)⟩

/-- Claim C9: `Leave` removes every occurrence of `U` via `$pull`, even from a
record that (in violation of the intended invariant) lists `U` more than
once: afterwards `U` occurs zero times in the stored member list. -/
theorem leave_removes_every_occurrence (s : Store) (e u : String)
    (r : EventRec) (hr : findRecord s e = some r) :
    findRecord (rsvp s e u "leave").2 e =
      some { r with attendees := pullAll r.attendees u }
    ∧ (pullAll r.attendees u).count u = 0 := by
  constructor
  · rw [rsvp_leave_found s e u r hr]
    exact findRecord_updateRecord_self s e r _ hr
  · exact count_pullAll r.attendees u

/-- Witness for C9: a record holding "alice" twice; after her `Leave` she
occurs zero times. -/
theorem leave_removes_every_occurrence_w :
    findRecord (rsvp [("e1", ⟨5, ["alice", "bob", "alice"]⟩)] "e1" "alice"
        "leave").2 "e1" =
      some ⟨5, pullAll ["alice", "bob", "alice"] "alice"⟩
    ∧ (pullAll ["alice", "bob", "alice"] "alice").count "alice" = 0 :=
  leave_removes_every_occurrence [("e1", ⟨5, ["alice", "bob", "alice"]⟩)]
    "e1" "alice" ⟨5, ["alice", "bob", "alice"]⟩ (by decide)

/-- Claim C10: an RSVP call on event `e` (any action) never changes the record
stored under any other event id. -/
theorem rsvp_frame (s : Store) (e e2 u a : String) (h : e2 ≠ e) :
    findRecord (rsvp s e u a).2 e2 = findRecord s e2 := by
  by_cases hj : a = "join"
  · subst hj
    cases hr : findRecord s e with
    | none => rw [rsvp_join_notFound s e u hr]
    | some r =>
      by_cases hu : u ∈ r.attendees
      · rw [rsvp_join_already s e u r hr hu]
      · by_cases hc : r.attendees.length < r.capacity
        · rw [rsvp_join_ok s e u r hr hu hc]
          exact findRecord_updateRecord_ne s e e2 _ h
        · rw [rsvp_join_full s e u r hr hu (Nat.not_lt.mp hc)]
  · by_cases hl : a = "leave"
    · subst hl
      cases hr : findRecord s e with
      | none => rw [rsvp_leave_missing s e u hr]
      | some r =>
        rw [rsvp_leave_found s e u r hr]
        exact findRecord_updateRecord_ne s e e2 _ h
    · rw [rsvp_invalid s e u a hj hl]

/-- Witness for C10: a join filling event `e1` leaves `e2` untouched. -/
theorem rsvp_frame_w :
    ("e2" ≠ "e1") ∧
    findRecord (rsvp [("e1", ⟨2, []⟩), ("e2", ⟨1, ["carol"]⟩)] "e1" "alice"
        "join").2 "e2" =
      findRecord [("e1", ⟨2, []⟩), ("e2", ⟨1, ["carol"]⟩)] "e2" :=
  ⟨by decide,
   rsvp_frame [("e1", ⟨2, []⟩), ("e2", ⟨1, ["carol"]⟩)] "e1" "e2" "alice"
     "join" (by decide)⟩
